import Mathlib

/-
Shallow embedding of the nano-limit scheduler (src/src/limit.ts).

The limiter created by `createLimit` is a closure over mutable state:
a priority queue of pending operations, an active count, a token bucket
(`tokens`, `lastRefill`), a refill-timer handle, idle resolvers, and the
abort listeners registered on cancellation signals.  We model that state
as the structure `Sched` and each entry point of the closure
(`enqueue`, the completion continuations, the refill-timer callback, the
`onAbort` handlers, `clearQueue`, `onIdle`) as a pure state-transition
function.  Promise settlements are modelled as an output list of
(operation id, outcome) pairs, and released idle waiters as an output
list of waiter ids.  Time is the `now` field of an environment passed to
each event (the value of Date.now() at that event); the set of abort
signals currently in the aborted state is the `aborted` field.
-/

namespace NanoLimit

/-- How a settled promise ended: the computation's own result
(success / failed), or a scheduler-originated error. -/
inductive Outcome
  | success
  | failed
  | aborted
  | queueFull
  | cleared
deriving DecidableEq, Repr

/-- A queued operation: its identity, priority and optional abort-signal
id (`signal` in the source; `none` when no signal was passed). -/
structure Op where
  id : Nat
  priority : Int
  sig : Option Nat
deriving DecidableEq, Repr

/-- Limiter configuration (`LimitOptions` after defaulting).  `none`
encodes Infinity for `concurrency` / `maxQueueSize` and "rate limiting
disabled" for `rate`. -/
structure Cfg where
  concurrency : Option Nat
  rate : Option Nat
  interval : Nat
  maxQueueSize : Option Nat
deriving DecidableEq, Repr

/-- The closure state of one limiter instance.  `tokens` is only
meaningful when `cfg.rate` is set: in the source, `tokens` is Infinity
when `rate` is undefined, and every read of it is then through a
comparison that is constant; the guards below pattern-match on
`cfg.rate` accordingly.  `listeners` holds the registered abort
listeners as (signal id, operation id) pairs.  `activeIds` records which
operations are in flight (in the source this is implicit in the pending
promise continuations). -/
structure Sched where
  cfg : Cfg
  queue : List Op
  activeCount : Nat
  activeIds : List Nat
  tokens : Nat
  lastRefill : Nat
  timerArmed : Bool
  idleWaiters : List Nat
  listeners : List (Nat × Nat)
deriving DecidableEq, Repr

/-- External state at an event: the current clock value and the ids of
the abort signals currently in the aborted state. -/
structure Env where
  now : Nat
  aborted : List Nat
deriving DecidableEq, Repr

/-- State right after `createLimit` returns, at clock value t0. -/
def initSched (cfg : Cfg) (t0 : Nat) : Sched :=
  { cfg := cfg
    queue := []
    activeCount := 0
    activeIds := []
    tokens := cfg.rate.getD 0
    lastRefill := t0
    timerArmed := false
    idleWaiters := []
    listeners := [] }

/-- `signal?.aborted` for an optional signal. -/
def sigAborted (ab : List Nat) : Option Nat → Bool
  | none => false
  | some g => decide (g ∈ ab)

/-- `activeCount < concurrency` (true when concurrency is Infinity). -/
def underConc (cfg : Cfg) (a : Nat) : Bool :=
  match cfg.concurrency with
  | none => true
  | some c => decide (a < c)

/-- `tokens > 0` (true when rate limiting is disabled: tokens is then
Infinity in the source). -/
def tokensPos (cfg : Cfg) (t : Nat) : Bool :=
  match cfg.rate with
  | none => true
  | some _ => decide (0 < t)

/-- `tokens <= 0` (false when rate limiting is disabled). -/
def tokensLEZ (cfg : Cfg) (t : Nat) : Bool :=
  match cfg.rate with
  | none => false
  | some _ => decide (t = 0)

/-- The `if (rate !== undefined) tokens--;` step of the admission loop. -/
def consumeToken (cfg : Cfg) (t : Nat) : Nat :=
  match cfg.rate with
  | none => t
  | some _ => t - 1

/-- `queue.length >= maxQueueSize` (false when maxQueueSize is
Infinity). -/
def queueFull (cfg : Cfg) (len : Nat) : Bool :=
  match cfg.maxQueueSize with
  | none => false
  | some m => decide (m ≤ len)

/-- `refillTokens` from the source: lazily apply all full windows
elapsed since the last refill boundary.  Returns the new (tokens,
lastRefill) pair.  Clock values are naturals; `now - lastRefill` is
truncated subtraction, which matches the source because a negative
elapsed value there also takes the `elapsed >= interval` false branch. -/
def refillTokens (cfg : Cfg) (now tokens lastRefill : Nat) : Nat × Nat :=
  match cfg.rate with
  | none => (tokens, lastRefill)
  | some r =>
    let elapsed := now - lastRefill
    if cfg.interval ≤ elapsed then
      let periods := elapsed / cfg.interval
      (min r (tokens + r * periods), lastRefill + periods * cfg.interval)
    else (tokens, lastRefill)

/-- `scheduleRefill` from the source, reduced to its effect on the
armed flag (the timer handle): returns the new armed flag given the
current one and the queue length at the call. -/
def scheduleRefill (cfg : Cfg) (armed : Bool) (queueLen : Nat) : Bool :=
  if cfg.rate.isNone || armed then armed
  else if queueLen = 0 then armed
  else true

/-- The priority-order insertion in `enqueue`: place the new operation
at the first position whose occupant has strictly lower priority,
appending at the end when there is none. -/
def insertOp (op : Op) : List Op → List Op
  | [] => [op]
  | x :: xs => if x.priority < op.priority then op :: x :: xs else x :: insertOp op xs

/-- Result of the admission `while` loop of `processQueue`: the
remaining queue, the updated active count and token count, the promise
settlements produced (admission/cancellation races), the ids dispatched
for execution, and the ids popped from the queue (whose abort listeners
were removed). -/
structure LoopOut where
  queue : List Op
  active : Nat
  tokens : Nat
  settles : List (Nat × Outcome)
  dispatched : List Nat
  popped : List Nat
deriving DecidableEq, Repr

/-- The admission `while` loop of `processQueue`.  While the queue is
non-empty, `activeCount < concurrency` and `tokens > 0`: shift the head,
remove its abort listener (recorded via `popped`); if its signal is
already aborted, reject with AbortError and continue; otherwise
increment the active count, consume a token (when rate limiting is
enabled) and dispatch. -/
def processLoop (cfg : Cfg) (ab : List Nat) : List Op → Nat → Nat → LoopOut
  | [], a, t => ⟨[], a, t, [], [], []⟩
  | op :: rest, a, t =>
    if underConc cfg a && tokensPos cfg t then
      if sigAborted ab op.sig then
        let r := processLoop cfg ab rest a t
        ⟨r.queue, r.active, r.tokens, (op.id, Outcome.aborted) :: r.settles,
          r.dispatched, op.id :: r.popped⟩
      else
        let r := processLoop cfg ab rest (a + 1) (consumeToken cfg t)
        ⟨r.queue, r.active, r.tokens, r.settles, op.id :: r.dispatched, op.id :: r.popped⟩
    else ⟨op :: rest, a, t, [], [], []⟩

/-- `checkIdle` from the source: when nothing is active, the queue is
empty and waiters are registered, drain and release them as one batch.
Returns the new state and the released waiter ids. -/
def checkIdle (s : Sched) : Sched × List Nat :=
  if s.activeCount = 0 ∧ s.queue = [] ∧ s.idleWaiters ≠ [] then
    ({ s with idleWaiters := [] }, s.idleWaiters)
  else (s, [])

/-- `processQueue` from the source: refill the bucket, run the
admission loop, arm the refill timer when pending work is rate-starved,
then check idleness.  Returns the new state, the settlements and the
released idle waiters. -/
def processQueue (env : Env) (s : Sched) : Sched × List (Nat × Outcome) × List Nat :=
  let rf := refillTokens s.cfg env.now s.tokens s.lastRefill
  let r := processLoop s.cfg env.aborted s.queue s.activeCount rf.1
  let s1 : Sched :=
    { s with
      queue := r.queue
      activeCount := r.active
      tokens := r.tokens
      lastRefill := rf.2
      activeIds := r.dispatched ++ s.activeIds
      listeners := s.listeners.filter (fun l => decide (l.2 ∉ r.popped))
      timerArmed :=
        if !r.queue.isEmpty && tokensLEZ s.cfg r.tokens then
          scheduleRefill s.cfg s.timerArmed r.queue.length
        else s.timerArmed }
  let ci := checkIdle s1
  (ci.1, r.settles, ci.2)

/-- `enqueue` from the source (the limiter function itself): an
already-aborted signal rejects synchronously; a full queue rejects with
QueueFullError; otherwise the abort listener is registered, the
operation is inserted in priority order, and `processQueue` runs. -/
def enqueue (env : Env) (op : Op) (s : Sched) : Sched × List (Nat × Outcome) × List Nat :=
  if sigAborted env.aborted op.sig then (s, [(op.id, Outcome.aborted)], [])
  else if queueFull s.cfg s.queue.length then (s, [(op.id, Outcome.queueFull)], [])
  else
    let s1 : Sched :=
      { s with
        listeners :=
          match op.sig with
          | some g => s.listeners ++ [(g, op.id)]
          | none => s.listeners
        queue := insertOp op s.queue }
    processQueue env s1

/-- The completion continuation attached to a dispatched computation:
decrement the active count, settle the caller's promise with the result
or failure, re-run `processQueue`, then `checkIdle`.  Only in-flight
operations produce completion events; an id that is not in flight is a
no-op (such an event cannot arise from the source). -/
def onComplete (env : Env) (id : Nat) (ok : Bool) (s : Sched) :
    Sched × List (Nat × Outcome) × List Nat :=
  if id ∈ s.activeIds then
    let s1 : Sched :=
      { s with activeCount := s.activeCount - 1, activeIds := s.activeIds.erase id }
    let pq := processQueue env s1
    let ci := checkIdle pq.1
    (ci.1, (id, if ok then Outcome.success else Outcome.failed) :: pq.2.1, pq.2.2 ++ ci.2)
  else (s, [], [])

/-- The refill-timer callback: clear the handle, refill, and re-run the
admission pass.  Fires only while the timer is armed. -/
def onTimerFire (env : Env) (s : Sched) : Sched × List (Nat × Outcome) × List Nat :=
  if s.timerArmed then
    let s1 : Sched := { s with timerArmed := false }
    let rf := refillTokens s1.cfg env.now s1.tokens s1.lastRefill
    processQueue env { s1 with tokens := rf.1, lastRefill := rf.2 }
  else (s, [], [])

/-- The `onAbort` handlers of the listeners fired by one signal, run in
registration order: each looks its operation up in the queue and, when
present, splices it out and rejects it with AbortError. -/
def runAbortHandlers : List (Nat × Nat) → List Op → List Op × List (Nat × Outcome)
  | [], q => (q, [])
  | l :: ls, q =>
    if q.any (fun op => op.id == l.2) then
      let rec1 := runAbortHandlers ls (q.eraseP (fun op => op.id == l.2))
      (rec1.1, (l.2, Outcome.aborted) :: rec1.2)
    else runAbortHandlers ls q

/-- An abort signal firing: every once-listener registered for that
signal runs and is deregistered.  Nothing else is touched: the timer is
not disarmed and no admission pass or idle check runs. -/
def onAbortSignal (g : Nat) (s : Sched) : Sched × List (Nat × Outcome) × List Nat :=
  let fired := s.listeners.filter (fun l => l.1 == g)
  let res := runAbortHandlers fired s.queue
  ({ s with
      queue := res.1
      listeners := s.listeners.filter (fun l => !(l.1 == g)) },
    res.2, [])

/-- `clearQueue` from the source: cancel any armed refill timer, shift
every queued operation out, remove its abort listener, reject it with
QueueClearedError when `rej` is set, then check idleness. -/
def clearQueue (rej : Bool) (s : Sched) : Sched × List (Nat × Outcome) × List Nat :=
  let removed := s.queue
  let s1 : Sched :=
    { s with
      timerArmed := false
      queue := []
      listeners := s.listeners.filter (fun l => !removed.any (fun op => op.id == l.2)) }
  let ci := checkIdle s1
  (ci.1, if rej then removed.map (fun op => (op.id, Outcome.cleared)) else [], ci.2)

/-- `onIdle` from the source: resolve immediately when already idle
(the waiter id appears in the released list), otherwise register the
waiter. -/
def onIdle (w : Nat) (s : Sched) : Sched × List (Nat × Outcome) × List Nat :=
  if s.activeCount = 0 ∧ s.queue = [] then (s, [], [w])
  else ({ s with idleWaiters := s.idleWaiters ++ [w] }, [], [])

/-- The events a limiter instance can experience. -/
inductive Event
  | submit (op : Op)
  | complete (id : Nat) (ok : Bool)
  | timerFire
  | abortFire (g : Nat)
  | clear (rej : Bool)
  | idleReq (w : Nat)
deriving DecidableEq, Repr

/-- One event step of the limiter. -/
def step (env : Env) (e : Event) (s : Sched) : Sched × List (Nat × Outcome) × List Nat :=
  match e with
  | Event.submit op => enqueue env op s
  | Event.complete id ok => onComplete env id ok s
  | Event.timerFire => onTimerFire env s
  | Event.abortFire g => onAbortSignal g s
  | Event.clear rej => clearQueue rej s
  | Event.idleReq w => onIdle w s

/-- Run a sequence of timed events, returning the final state. -/
def runSched (s : Sched) : List (Env × Event) → Sched
  | [] => s
  | (env, e) :: tr => runSched (step env e s).1 tr

/-- Run a sequence of timed events, returning the final state together
with every idle-waiter release produced along the way. -/
def runRel (s : Sched) : List (Env × Event) → Sched × List Nat
  | [] => (s, [])
  | (env, e) :: tr =>
    let st := step env e s
    let rest := runRel st.1 tr
    (rest.1, st.2.2 ++ rest.2)

/-- The priority-queue ordering invariant: priorities are nonincreasing
from front to back. -/
def sortedQ (q : List Op) : Prop :=
  q.Pairwise (fun a b => b.priority ≤ a.priority)

/-! ### Facts about `checkIdle` -/

@[simp] theorem checkIdle_cfg (s : Sched) : (checkIdle s).1.cfg = s.cfg := by
  unfold checkIdle; split <;> rfl

@[simp] theorem checkIdle_queue (s : Sched) : (checkIdle s).1.queue = s.queue := by
  unfold checkIdle; split <;> rfl

@[simp] theorem checkIdle_activeCount (s : Sched) :
    (checkIdle s).1.activeCount = s.activeCount := by
  unfold checkIdle; split <;> rfl

@[simp] theorem checkIdle_activeIds (s : Sched) : (checkIdle s).1.activeIds = s.activeIds := by
  unfold checkIdle; split <;> rfl

@[simp] theorem checkIdle_tokens (s : Sched) : (checkIdle s).1.tokens = s.tokens := by
  unfold checkIdle; split <;> rfl

@[simp] theorem checkIdle_lastRefill (s : Sched) :
    (checkIdle s).1.lastRefill = s.lastRefill := by
  unfold checkIdle; split <;> rfl

@[simp] theorem checkIdle_timerArmed (s : Sched) :
    (checkIdle s).1.timerArmed = s.timerArmed := by
  unfold checkIdle; split <;> rfl

@[simp] theorem checkIdle_listeners (s : Sched) :
    (checkIdle s).1.listeners = s.listeners := by
  unfold checkIdle; split <;> rfl

/-- When the state passed to `checkIdle` is idle, all registered
waiters come back released and none remain. -/
theorem checkIdle_drain (s : Sched) (ha : s.activeCount = 0) (hq : s.queue = []) :
    (checkIdle s).1.idleWaiters = [] ∧ (checkIdle s).2 = s.idleWaiters := by
  unfold checkIdle
  split
  · exact ⟨rfl, rfl⟩
  · rename_i h
    push_neg at h
    exact ⟨h ha hq, (h ha hq).symm⟩

/-! ### Facts about the admission loop `processLoop` -/

theorem processLoop_active (cfg : Cfg) (ab : List Nat) :
    ∀ (q : List Op) (a t : Nat),
      (processLoop cfg ab q a t).active = a + (processLoop cfg ab q a t).dispatched.length := by
  intro q
  induction q with
  | nil => intro a t; simp [processLoop]
  | cons op rest ih =>
    intro a t
    simp only [processLoop]
    split
    · split
      · simpa using ih a t
      · have h := ih (a + 1) (consumeToken cfg t)
        simp only [List.length_cons]
        omega
    · simp

theorem processLoop_tokens_some (cfg : Cfg) (ab : List Nat) (ρ : Nat)
    (hr : cfg.rate = some ρ) :
    ∀ (q : List Op) (a t : Nat),
      (processLoop cfg ab q a t).tokens + (processLoop cfg ab q a t).dispatched.length = t := by
  intro q
  induction q with
  | nil => intro a t; simp [processLoop]
  | cons op rest ih =>
    intro a t
    simp only [processLoop]
    split
    · rename_i hguard
      have htpos : 0 < t := by
        have : tokensPos cfg t = true := by
          cases h : underConc cfg a <;> cases h2 : tokensPos cfg t <;>
            simp [h, h2] at hguard ⊢
        simpa [tokensPos, hr] using this
      split
      · simpa using ih a t
      · have h := ih (a + 1) (consumeToken cfg t)
        simp only [List.length_cons]
        have hc : consumeToken cfg t = t - 1 := by simp [consumeToken, hr]
        omega
    · simp

theorem processLoop_tokens_none (cfg : Cfg) (ab : List Nat) (hr : cfg.rate = none) :
    ∀ (q : List Op) (a t : Nat), (processLoop cfg ab q a t).tokens = t := by
  intro q
  induction q with
  | nil => intro a t; simp [processLoop]
  | cons op rest ih =>
    intro a t
    simp only [processLoop]
    split
    · have hc : consumeToken cfg t = t := by simp [consumeToken, hr]
      split
      · exact ih a t
      · rw [hc]; exact ih (a + 1) t
    · simp

theorem processLoop_sublist (cfg : Cfg) (ab : List Nat) :
    ∀ (q : List Op) (a t : Nat), (processLoop cfg ab q a t).queue.Sublist q := by
  intro q
  induction q with
  | nil => intro a t; simp [processLoop]
  | cons op rest ih =>
    intro a t
    simp only [processLoop]
    split
    · split
      · exact (ih a t).trans (List.sublist_cons_self op rest)
      · exact (ih (a + 1) (consumeToken cfg t)).trans (List.sublist_cons_self op rest)
    · simp

theorem processLoop_active_le (cfg : Cfg) (ab : List Nat) (c : Nat)
    (hc : cfg.concurrency = some c) :
    ∀ (q : List Op) (a t : Nat), a ≤ c → (processLoop cfg ab q a t).active ≤ c := by
  intro q
  induction q with
  | nil => intro a t ha; simpa [processLoop] using ha
  | cons op rest ih =>
    intro a t ha
    simp only [processLoop]
    split
    · rename_i hguard
      have hlt : a < c := by
        have : underConc cfg a = true := by
          cases h : underConc cfg a <;> cases h2 : tokensPos cfg t <;>
            simp [h, h2] at hguard ⊢
        simpa [underConc, hc] using this
      split
      · exact ih a t ha
      · exact ih (a + 1) (consumeToken cfg t) hlt
    · simpa using ha

theorem processLoop_settles (cfg : Cfg) (ab : List Nat) :
    ∀ (q : List Op) (a t : Nat), ∀ p ∈ (processLoop cfg ab q a t).settles,
      p.2 = Outcome.aborted ∧ ∃ op ∈ q, op.id = p.1 ∧ sigAborted ab op.sig = true := by
  intro q
  induction q with
  | nil => intro a t p hp; simp [processLoop] at hp
  | cons op rest ih =>
    intro a t p hp
    simp only [processLoop] at hp
    split at hp
    · split at hp
      · rename_i hab
        simp only [List.mem_cons] at hp
        rcases hp with rfl | hp
        · exact ⟨rfl, op, List.mem_cons_self op rest, rfl, hab⟩
        · obtain ⟨h1, o, ho, h2, h3⟩ := ih a t p hp
          exact ⟨h1, o, List.mem_cons_of_mem op ho, h2, h3⟩
      · obtain ⟨h1, o, ho, h2, h3⟩ := ih (a + 1) (consumeToken cfg t) p hp
        exact ⟨h1, o, List.mem_cons_of_mem op ho, h2, h3⟩
    · simp at hp

theorem processLoop_dispatched (cfg : Cfg) (ab : List Nat) :
    ∀ (q : List Op) (a t : Nat), ∀ i ∈ (processLoop cfg ab q a t).dispatched,
      ∃ op ∈ q, op.id = i ∧ sigAborted ab op.sig = false := by
  intro q
  induction q with
  | nil => intro a t i hi; simp [processLoop] at hi
  | cons op rest ih =>
    intro a t i hi
    simp only [processLoop] at hi
    split at hi
    · split at hi
      · obtain ⟨o, ho, h2, h3⟩ := ih a t i hi
        exact ⟨o, List.mem_cons_of_mem op ho, h2, h3⟩
      · rename_i hab
        simp only [List.mem_cons] at hi
        rcases hi with rfl | hi
        · exact ⟨op, List.mem_cons_self op rest, rfl, by simpa using hab⟩
        · obtain ⟨o, ho, h2, h3⟩ := ih (a + 1) (consumeToken cfg t) i hi
          exact ⟨o, List.mem_cons_of_mem op ho, h2, h3⟩
    · simp at hi

/-- An operation that is in the queue and whose signal is not aborted
either survives the admission loop in the queue or is dispatched. -/
theorem processLoop_mem (cfg : Cfg) (ab : List Nat) :
    ∀ (q : List Op) (a t : Nat) (op : Op), op ∈ q → sigAborted ab op.sig = false →
      op ∈ (processLoop cfg ab q a t).queue ∨ op.id ∈ (processLoop cfg ab q a t).dispatched := by
  intro q
  induction q with
  | nil => intro a t op hop; simp at hop
  | cons x rest ih =>
    intro a t op hop hsig
    simp only [processLoop]
    split
    · split
      · rename_i hab
        rcases List.mem_cons.mp hop with rfl | hop
        · rw [hsig] at hab; exact absurd hab (by simp)
        · simpa using ih a t op hop hsig
      · rcases List.mem_cons.mp hop with rfl | hop
        · simp
        · rcases ih (a + 1) (consumeToken cfg t) op hop hsig with h | h
          · exact Or.inl h
          · exact Or.inr (by simp [h])
    · exact Or.inl hop

/-! ### Facts about `insertOp` -/

@[simp] theorem mem_insertOp (op y : Op) :
    ∀ q : List Op, y ∈ insertOp op q ↔ y = op ∨ y ∈ q := by
  intro q
  induction q with
  | nil => simp [insertOp]
  | cons x xs ih =>
    simp only [insertOp]
    split
    · simp [List.mem_cons]
    · simp only [List.mem_cons, ih]
      tauto

theorem insertOp_sorted (op : Op) :
    ∀ q : List Op, sortedQ q → sortedQ (insertOp op q) := by
  intro q
  induction q with
  | nil => intro _; simp [insertOp, sortedQ]
  | cons x xs ih =>
    intro hs
    rw [sortedQ, List.pairwise_cons] at hs
    obtain ⟨hx, hxs⟩ := hs
    simp only [insertOp]
    split
    · rename_i hlt
      rw [sortedQ, List.pairwise_cons]
      constructor
      · intro y hy
        rcases List.mem_cons.mp hy with rfl | hy
        · exact le_of_lt hlt
        · exact (hx y hy).trans (le_of_lt hlt)
      · rw [sortedQ, List.pairwise_cons] at *
        exact ⟨hx, hxs⟩
    · rename_i hnlt
      rw [sortedQ, List.pairwise_cons]
      constructor
      · intro y hy
        rcases (mem_insertOp op y xs).mp hy with rfl | hy
        · exact not_lt.mp hnlt
        · exact hx y hy
      · exact ih hxs

/-- On a queue sorted by nonincreasing priority, `insertOp` splits it
at the first occupant of strictly lower priority: everything before the
insertion point has priority at least the new operation's, and
everything after has strictly lower priority. -/
theorem insertOp_split (op : Op) :
    ∀ q : List Op, sortedQ q →
      ∃ q₁ q₂, q = q₁ ++ q₂ ∧ insertOp op q = q₁ ++ op :: q₂ ∧
        (∀ x ∈ q₁, op.priority ≤ x.priority) ∧ (∀ x ∈ q₂, x.priority < op.priority) := by
  intro q
  induction q with
  | nil => intro _; exact ⟨[], [], rfl, rfl, by simp, by simp⟩
  | cons x xs ih =>
    intro hs
    rw [sortedQ, List.pairwise_cons] at hs
    obtain ⟨hx, hxs⟩ := hs
    by_cases hlt : x.priority < op.priority
    · refine ⟨[], x :: xs, rfl, ?_, by simp, ?_⟩
      · simp [insertOp, hlt]
      · intro y hy
        rcases List.mem_cons.mp hy with rfl | hy
        · exact hlt
        · exact lt_of_le_of_lt (hx y hy) hlt
    · obtain ⟨q₁, q₂, heq, hins, h1, h2⟩ := ih hxs
      refine ⟨x :: q₁, q₂, by rw [heq]; rfl, ?_, ?_, h2⟩
      · simp [insertOp, hlt, hins]
      · intro y hy
        rcases List.mem_cons.mp hy with rfl | hy
        · exact not_lt.mp hlt
        · exact h1 y hy

/-- The head of a sorted queue has maximal priority. -/
theorem sorted_head_max (op : Op) (rest : List Op) (hs : sortedQ (op :: rest)) :
    ∀ x ∈ op :: rest, x.priority ≤ op.priority := by
  rw [sortedQ, List.pairwise_cons] at hs
  intro x hx
  rcases List.mem_cons.mp hx with rfl | hx
  · exact le_refl _
  · exact hs.1 x hx

/-! ### Facts about `processQueue` -/

/-- The admission-loop result inside one `processQueue` pass. -/
def pqLoop (env : Env) (s : Sched) : LoopOut :=
  processLoop s.cfg env.aborted s.queue s.activeCount
    (refillTokens s.cfg env.now s.tokens s.lastRefill).1

/-- The state of one `processQueue` pass right before its final
`checkIdle`. -/
def pqMid (env : Env) (s : Sched) : Sched :=
  { s with
    queue := (pqLoop env s).queue
    activeCount := (pqLoop env s).active
    tokens := (pqLoop env s).tokens
    lastRefill := (refillTokens s.cfg env.now s.tokens s.lastRefill).2
    activeIds := (pqLoop env s).dispatched ++ s.activeIds
    listeners := s.listeners.filter (fun l => decide (l.2 ∉ (pqLoop env s).popped))
    timerArmed :=
      if !(pqLoop env s).queue.isEmpty && tokensLEZ s.cfg (pqLoop env s).tokens then
        scheduleRefill s.cfg s.timerArmed (pqLoop env s).queue.length
      else s.timerArmed }

theorem processQueue_eq (env : Env) (s : Sched) :
    processQueue env s =
      ((checkIdle (pqMid env s)).1, (pqLoop env s).settles, (checkIdle (pqMid env s)).2) := rfl

@[simp] theorem pqMid_cfg (env : Env) (s : Sched) : (pqMid env s).cfg = s.cfg := rfl

@[simp] theorem pqMid_queue (env : Env) (s : Sched) :
    (pqMid env s).queue = (pqLoop env s).queue := rfl

@[simp] theorem pqMid_activeCount (env : Env) (s : Sched) :
    (pqMid env s).activeCount = (pqLoop env s).active := rfl

@[simp] theorem pqMid_tokens (env : Env) (s : Sched) :
    (pqMid env s).tokens = (pqLoop env s).tokens := rfl

@[simp] theorem pqMid_activeIds (env : Env) (s : Sched) :
    (pqMid env s).activeIds = (pqLoop env s).dispatched ++ s.activeIds := rfl

@[simp] theorem pqMid_idleWaiters (env : Env) (s : Sched) :
    (pqMid env s).idleWaiters = s.idleWaiters := rfl

@[simp] theorem processQueue_cfg (env : Env) (s : Sched) :
    (processQueue env s).1.cfg = s.cfg := by
  rw [processQueue_eq]; simp

@[simp] theorem processQueue_queue (env : Env) (s : Sched) :
    (processQueue env s).1.queue = (pqLoop env s).queue := by
  rw [processQueue_eq]; simp

@[simp] theorem processQueue_activeCount (env : Env) (s : Sched) :
    (processQueue env s).1.activeCount = (pqLoop env s).active := by
  rw [processQueue_eq]; simp

@[simp] theorem processQueue_tokens (env : Env) (s : Sched) :
    (processQueue env s).1.tokens = (pqLoop env s).tokens := by
  rw [processQueue_eq]; simp

@[simp] theorem processQueue_activeIds (env : Env) (s : Sched) :
    (processQueue env s).1.activeIds = (pqLoop env s).dispatched ++ s.activeIds := by
  rw [processQueue_eq]; simp

@[simp] theorem processQueue_settles (env : Env) (s : Sched) :
    (processQueue env s).2.1 = (pqLoop env s).settles := by
  rw [processQueue_eq]

theorem processQueue_active_le (env : Env) (s : Sched) (c : Nat)
    (hc : s.cfg.concurrency = some c) (ha : s.activeCount ≤ c) :
    (processQueue env s).1.activeCount ≤ c := by
  rw [processQueue_activeCount]
  exact processLoop_active_le s.cfg env.aborted c hc _ _ _ ha

theorem processQueue_sorted (env : Env) (s : Sched) (hs : sortedQ s.queue) :
    sortedQ (processQueue env s).1.queue := by
  rw [processQueue_queue]
  exact List.Pairwise.sublist (processLoop_sublist s.cfg env.aborted _ _ _) hs

theorem scheduleRefill_armed (cfg : Cfg) (armed : Bool) (len : Nat) (ρ : Nat)
    (hr : cfg.rate = some ρ) (hlen : len ≠ 0) :
    scheduleRefill cfg armed len = true := by
  cases armed <;> simp [scheduleRefill, hr, hlen]

/-- After a `processQueue` pass, rate-starved pending work always has
the refill timer armed. -/
theorem processQueue_armed (env : Env) (s : Sched) (ρ : Nat) (hr : s.cfg.rate = some ρ)
    (hq : (processQueue env s).1.queue ≠ []) (ht : (processQueue env s).1.tokens = 0) :
    (processQueue env s).1.timerArmed = true := by
  rw [processQueue_queue] at hq
  rw [processQueue_tokens] at ht
  rw [processQueue_eq]
  rw [checkIdle_timerArmed]
  show (if !(pqLoop env s).queue.isEmpty && tokensLEZ s.cfg (pqLoop env s).tokens then
    scheduleRefill s.cfg s.timerArmed (pqLoop env s).queue.length else s.timerArmed) = true
  rw [if_pos]
  · exact scheduleRefill_armed s.cfg s.timerArmed _ ρ hr (by simpa using hq)
  · simp only [Bool.and_eq_true, Bool.not_eq_true']
    exact ⟨by simpa [List.isEmpty_iff] using hq, by simp [tokensLEZ, hr, ht]⟩

/-- A `processQueue` pass never leaves idle waiters behind once both
counts are zero: the final `checkIdle` releases all of them. -/
theorem processQueue_drain (env : Env) (s : Sched)
    (ha : (processQueue env s).1.activeCount = 0) (hq : (processQueue env s).1.queue = []) :
    (processQueue env s).1.idleWaiters = [] ∧ (processQueue env s).2.2 = s.idleWaiters := by
  rw [processQueue_activeCount] at ha
  rw [processQueue_queue] at hq
  have h := checkIdle_drain (pqMid env s) (by simpa using ha) (by simpa using hq)
  rw [processQueue_eq]
  exact ⟨h.1, by rw [h.2]; rfl⟩

/-! ### Facts about `runAbortHandlers` and `onAbortSignal` -/

/-- After erasing the element with a given id from a queue with
distinct ids, no element with that id remains. -/
theorem eraseP_id_free (i : Nat) :
    ∀ q : List Op, (q.map Op.id).Nodup →
      ∀ x ∈ q.eraseP (fun o => o.id == i), x.id ≠ i := by
  intro q
  induction q with
  | nil => intro _ x hx; simp at hx
  | cons a rest ih =>
    intro hnd x hx
    simp only [List.map_cons, List.nodup_cons] at hnd
    by_cases ha : a.id = i
    · rw [List.eraseP_cons_of_pos (by simpa using ha)] at hx
      intro hxi
      exact hnd.1 (by rw [ha.trans hxi.symm]; exact List.mem_map_of_mem Op.id hx)
    · rw [List.eraseP_cons_of_neg (by simpa using ha)] at hx
      rcases List.mem_cons.mp hx with rfl | hx
      · exact ha
      · exact ih hnd.2 x hx

/-- An element whose id differs from the erased one survives. -/
theorem mem_eraseP_id (i : Nat) :
    ∀ q : List Op, ∀ x ∈ q, x.id ≠ i → x ∈ q.eraseP (fun o => o.id == i) := by
  intro q x hx hxi
  exact (List.mem_eraseP_of_neg (by simpa using hxi)).mpr hx

theorem runAbortHandlers_sublist :
    ∀ (ls : List (Nat × Nat)) (q : List Op), (runAbortHandlers ls q).1.Sublist q := by
  intro ls
  induction ls with
  | nil => intro q; simp [runAbortHandlers]
  | cons l rest ih =>
    intro q
    simp only [runAbortHandlers]
    split
    · exact (ih _).trans (List.eraseP_sublist q)
    · exact ih q

/-- Every settlement produced by the abort handlers names an operation
that was in the queue when the signal fired. -/
theorem runAbortHandlers_settles :
    ∀ (ls : List (Nat × Nat)) (q : List Op), ∀ p ∈ (runAbortHandlers ls q).2,
      p.2 = Outcome.aborted ∧ ∃ op ∈ q, op.id = p.1 := by
  intro ls
  induction ls with
  | nil => intro q p hp; simp [runAbortHandlers] at hp
  | cons l rest ih =>
    intro q p hp
    simp only [runAbortHandlers] at hp
    split at hp
    · rename_i hany
      simp only [List.mem_cons] at hp
      rcases hp with rfl | hp
      · obtain ⟨op, hop, hid⟩ := List.any_eq_true.mp hany
        exact ⟨rfl, op, hop, by simpa using hid⟩
      · obtain ⟨h1, op, hop, hid⟩ := ih _ p hp
        exact ⟨h1, op, (List.eraseP_sublist q).mem hop, hid⟩
    · exact ih q p hp

/-- A fired listener whose operation is queued removes that operation
and rejects it, regardless of the other listeners fired by the same
signal (operation ids and listener targets being distinct). -/
theorem runAbortHandlers_hit :
    ∀ (ls : List (Nat × Nat)) (q : List Op) (i : Nat),
      (∃ l ∈ ls, l.2 = i) → (∃ op ∈ q, op.id = i) →
      (q.map Op.id).Nodup → (ls.map Prod.snd).Nodup →
      (∀ op ∈ (runAbortHandlers ls q).1, op.id ≠ i) ∧
        (i, Outcome.aborted) ∈ (runAbortHandlers ls q).2 := by
  intro ls
  induction ls with
  | nil => intro q i hl; simp at hl
  | cons l rest ih =>
    intro q i hl hq hqnd hlnd
    simp only [List.map_cons, List.nodup_cons] at hlnd
    by_cases hli : l.2 = i
    · have hany : q.any (fun op => op.id == l.2) = true := by
        obtain ⟨op, hop, hid⟩ := hq
        exact List.any_eq_true.mpr ⟨op, hop, by simp [hid, hli]⟩
      simp only [runAbortHandlers, hany, if_pos]
      constructor
      · intro op hop
        have hsub := runAbortHandlers_sublist rest (q.eraseP (fun o => o.id == l.2))
        have := hsub.mem hop
        rw [hli] at this
        exact eraseP_id_free i q hqnd op this
      · rw [hli]; exact List.mem_cons_self _ _
    · have hl' : ∃ l' ∈ rest, l'.2 = i := by
        obtain ⟨l', hl', hi⟩ := hl
        rcases List.mem_cons.mp hl' with rfl | hmem
        · exact absurd hi hli
        · exact ⟨l', hmem, hi⟩
      simp only [runAbortHandlers]
      split
      · have hq' : ∃ op ∈ q.eraseP (fun o => o.id == l.2), op.id = i := by
          obtain ⟨op, hop, hid⟩ := hq
          exact ⟨op, mem_eraseP_id l.2 q op hop (by rw [hid]; exact fun h => hli h.symm), hid⟩
        have hqnd' : ((q.eraseP (fun o => o.id == l.2)).map Op.id).Nodup :=
          List.Nodup.sublist (List.Sublist.map Op.id (List.eraseP_sublist q)) hqnd
        obtain ⟨h1, h2⟩ := ih _ i hl' hq' hqnd' hlnd.2
        exact ⟨h1, List.mem_cons_of_mem _ h2⟩
      · exact ih q i hl' hq hqnd hlnd.2

/-! ### Branch equations for the event functions -/

/-- The state after `enqueue` has registered the listener and inserted
the operation, right before its `processQueue` call. -/
def midEnq (op : Op) (s : Sched) : Sched :=
  { s with
    listeners :=
      match op.sig with
      | some g => s.listeners ++ [(g, op.id)]
      | none => s.listeners
    queue := insertOp op s.queue }

theorem enqueue_aborted_eq (env : Env) (op : Op) (s : Sched)
    (h : sigAborted env.aborted op.sig = true) :
    enqueue env op s = (s, [(op.id, Outcome.aborted)], []) := by
  unfold enqueue; rw [if_pos h]

theorem enqueue_full_eq (env : Env) (op : Op) (s : Sched)
    (h1 : sigAborted env.aborted op.sig = false)
    (h2 : queueFull s.cfg s.queue.length = true) :
    enqueue env op s = (s, [(op.id, Outcome.queueFull)], []) := by
  unfold enqueue
  rw [if_neg (by simp [h1]), if_pos h2]

theorem enqueue_ok_eq (env : Env) (op : Op) (s : Sched)
    (h1 : sigAborted env.aborted op.sig = false)
    (h2 : queueFull s.cfg s.queue.length = false) :
    enqueue env op s = processQueue env (midEnq op s) := by
  unfold enqueue
  rw [if_neg (by simp [h1]), if_neg (by simp [h2])]
  rfl

/-- The state after a completion has decremented the active count,
right before its `processQueue` call. -/
def midCpl (id : Nat) (s : Sched) : Sched :=
  { s with activeCount := s.activeCount - 1, activeIds := s.activeIds.erase id }

theorem onComplete_mem_eq (env : Env) (id : Nat) (ok : Bool) (s : Sched)
    (h : id ∈ s.activeIds) :
    onComplete env id ok s =
      ((checkIdle (processQueue env (midCpl id s)).1).1,
       (id, if ok then Outcome.success else Outcome.failed) ::
         (processQueue env (midCpl id s)).2.1,
       (processQueue env (midCpl id s)).2.2 ++
         (checkIdle (processQueue env (midCpl id s)).1).2) := by
  unfold onComplete; rw [if_pos h]; rfl

theorem onComplete_notMem_eq (env : Env) (id : Nat) (ok : Bool) (s : Sched)
    (h : id ∉ s.activeIds) :
    onComplete env id ok s = (s, [], []) := by
  unfold onComplete; rw [if_neg h]

/-- The state inside the refill-timer callback right before its
`processQueue` call: handle cleared, bucket refilled. -/
def midTmr (env : Env) (s : Sched) : Sched :=
  { s with
    timerArmed := false
    tokens := (refillTokens s.cfg env.now s.tokens s.lastRefill).1
    lastRefill := (refillTokens s.cfg env.now s.tokens s.lastRefill).2 }

theorem onTimerFire_armed_eq (env : Env) (s : Sched) (h : s.timerArmed = true) :
    onTimerFire env s = processQueue env (midTmr env s) := by
  unfold onTimerFire; rw [if_pos h]; rfl

theorem onTimerFire_unarmed_eq (env : Env) (s : Sched) (h : s.timerArmed = false) :
    onTimerFire env s = (s, [], []) := by
  unfold onTimerFire; rw [if_neg (by simp [h])]

/-- The state after `clearQueue` has cancelled the timer and drained
the queue, right before its `checkIdle` call. -/
def midClr (s : Sched) : Sched :=
  { s with
    timerArmed := false
    queue := []
    listeners := s.listeners.filter (fun l => !s.queue.any (fun op => op.id == l.2)) }

theorem clearQueue_eq (rej : Bool) (s : Sched) :
    clearQueue rej s =
      ((checkIdle (midClr s)).1,
       if rej then s.queue.map (fun op => (op.id, Outcome.cleared)) else [],
       (checkIdle (midClr s)).2) := rfl

theorem onAbortSignal_eq (g : Nat) (s : Sched) :
    onAbortSignal g s =
      ({ s with
          queue := (runAbortHandlers (s.listeners.filter (fun l => l.1 == g)) s.queue).1
          listeners := s.listeners.filter (fun l => !(l.1 == g)) },
       (runAbortHandlers (s.listeners.filter (fun l => l.1 == g)) s.queue).2, []) := rfl

theorem onIdle_idle_eq (w : Nat) (s : Sched) (ha : s.activeCount = 0) (hq : s.queue = []) :
    onIdle w s = (s, [], [w]) := by
  unfold onIdle; rw [if_pos ⟨ha, hq⟩]

theorem onIdle_busy_eq (w : Nat) (s : Sched) (h : ¬(s.activeCount = 0 ∧ s.queue = [])) :
    onIdle w s = ({ s with idleWaiters := s.idleWaiters ++ [w] }, [], []) := by
  unfold onIdle; rw [if_neg h]

/-- Also no listener at all for a signal means its firing is a no-op. -/
theorem onAbortSignal_noop (g : Nat) (s : Sched) (h : ∀ l ∈ s.listeners, l.1 ≠ g) :
    onAbortSignal g s = (s, [], []) := by
  have hfil : s.listeners.filter (fun l => l.1 == g) = [] := by
    rw [List.filter_eq_nil_iff]
    intro l hl
    simpa using h l hl
  have hkeep : s.listeners.filter (fun l => !(l.1 == g)) = s.listeners := by
    rw [List.filter_eq_self]
    intro l hl
    simpa using h l hl
  simp only [onAbortSignal, hfil, hkeep, runAbortHandlers]

/-! ### Step-level invariants and the trace induction principle -/

theorem step_cfg (env : Env) (e : Event) (s : Sched) : (step env e s).1.cfg = s.cfg := by
  cases e with
  | submit op =>
    show (enqueue env op s).1.cfg = s.cfg
    cases h1 : sigAborted env.aborted op.sig
    · cases h2 : queueFull s.cfg s.queue.length
      · rw [enqueue_ok_eq env op s h1 h2, processQueue_cfg]; rfl
      · rw [enqueue_full_eq env op s h1 h2]
    · rw [enqueue_aborted_eq env op s h1]
  | complete id ok =>
    show (onComplete env id ok s).1.cfg = s.cfg
    by_cases h : id ∈ s.activeIds
    · rw [onComplete_mem_eq env id ok s h]
      show (checkIdle _).1.cfg = s.cfg
      rw [checkIdle_cfg, processQueue_cfg]; rfl
    · rw [onComplete_notMem_eq env id ok s h]
  | timerFire =>
    show (onTimerFire env s).1.cfg = s.cfg
    cases h : s.timerArmed
    · rw [onTimerFire_unarmed_eq env s h]
    · rw [onTimerFire_armed_eq env s h, processQueue_cfg]; rfl
  | abortFire g =>
    show (onAbortSignal g s).1.cfg = s.cfg
    rw [onAbortSignal_eq]
  | clear rej =>
    show (clearQueue rej s).1.cfg = s.cfg
    rw [clearQueue_eq]
    show (checkIdle _).1.cfg = s.cfg
    rw [checkIdle_cfg]; rfl
  | idleReq w =>
    show (onIdle w s).1.cfg = s.cfg
    by_cases h : s.activeCount = 0 ∧ s.queue = []
    · rw [onIdle_idle_eq w s h.1 h.2]
    · rw [onIdle_busy_eq w s h]

theorem step_active_le (env : Env) (e : Event) (s : Sched) (c : Nat)
    (hc : s.cfg.concurrency = some c) (h : s.activeCount ≤ c) :
    (step env e s).1.activeCount ≤ c := by
  cases e with
  | submit op =>
    show (enqueue env op s).1.activeCount ≤ c
    cases h1 : sigAborted env.aborted op.sig
    · cases h2 : queueFull s.cfg s.queue.length
      · rw [enqueue_ok_eq env op s h1 h2]
        exact processQueue_active_le env (midEnq op s) c hc h
      · rw [enqueue_full_eq env op s h1 h2]; exact h
    · rw [enqueue_aborted_eq env op s h1]; exact h
  | complete id ok =>
    show (onComplete env id ok s).1.activeCount ≤ c
    by_cases hm : id ∈ s.activeIds
    · rw [onComplete_mem_eq env id ok s hm]
      show (checkIdle _).1.activeCount ≤ c
      rw [checkIdle_activeCount]
      exact processQueue_active_le env (midCpl id s) c hc (le_trans (Nat.sub_le _ _) h)
    · rw [onComplete_notMem_eq env id ok s hm]; exact h
  | timerFire =>
    show (onTimerFire env s).1.activeCount ≤ c
    cases ht : s.timerArmed
    · rw [onTimerFire_unarmed_eq env s ht]; exact h
    · rw [onTimerFire_armed_eq env s ht]
      exact processQueue_active_le env (midTmr env s) c hc h
  | abortFire g =>
    show (onAbortSignal g s).1.activeCount ≤ c
    rw [onAbortSignal_eq]; exact h
  | clear rej =>
    show (clearQueue rej s).1.activeCount ≤ c
    rw [clearQueue_eq]
    show (checkIdle _).1.activeCount ≤ c
    rw [checkIdle_activeCount]; exact h
  | idleReq w =>
    show (onIdle w s).1.activeCount ≤ c
    by_cases hw : s.activeCount = 0 ∧ s.queue = []
    · rw [onIdle_idle_eq w s hw.1 hw.2]; exact h
    · rw [onIdle_busy_eq w s hw]; exact h

theorem step_sorted (env : Env) (e : Event) (s : Sched) (h : sortedQ s.queue) :
    sortedQ (step env e s).1.queue := by
  cases e with
  | submit op =>
    show sortedQ (enqueue env op s).1.queue
    cases h1 : sigAborted env.aborted op.sig
    · cases h2 : queueFull s.cfg s.queue.length
      · rw [enqueue_ok_eq env op s h1 h2]
        exact processQueue_sorted env (midEnq op s) (insertOp_sorted op s.queue h)
      · rw [enqueue_full_eq env op s h1 h2]; exact h
    · rw [enqueue_aborted_eq env op s h1]; exact h
  | complete id ok =>
    show sortedQ (onComplete env id ok s).1.queue
    by_cases hm : id ∈ s.activeIds
    · rw [onComplete_mem_eq env id ok s hm]
      show sortedQ (checkIdle _).1.queue
      rw [checkIdle_queue]
      exact processQueue_sorted env (midCpl id s) h
    · rw [onComplete_notMem_eq env id ok s hm]; exact h
  | timerFire =>
    show sortedQ (onTimerFire env s).1.queue
    cases ht : s.timerArmed
    · rw [onTimerFire_unarmed_eq env s ht]; exact h
    · rw [onTimerFire_armed_eq env s ht]
      exact processQueue_sorted env (midTmr env s) h
  | abortFire g =>
    show sortedQ (onAbortSignal g s).1.queue
    rw [onAbortSignal_eq]
    exact List.Pairwise.sublist (runAbortHandlers_sublist _ s.queue) h
  | clear rej =>
    show sortedQ (clearQueue rej s).1.queue
    rw [clearQueue_eq]
    show sortedQ (checkIdle _).1.queue
    rw [checkIdle_queue]
    exact List.Pairwise.nil
  | idleReq w =>
    show sortedQ (onIdle w s).1.queue
    by_cases hw : s.activeCount = 0 ∧ s.queue = []
    · rw [onIdle_idle_eq w s hw.1 hw.2]; exact h
    · rw [onIdle_busy_eq w s hw]; exact h

/-- Preservation of the one-directional timer invariant: pending work
with an empty bucket keeps the refill timer armed. -/
theorem step_armed (env : Env) (e : Event) (s : Sched) (ρ : Nat)
    (hr : s.cfg.rate = some ρ)
    (h : s.queue ≠ [] → s.tokens = 0 → s.timerArmed = true) :
    (step env e s).1.queue ≠ [] → (step env e s).1.tokens = 0 →
      (step env e s).1.timerArmed = true := by
  cases e with
  | submit op =>
    show (enqueue env op s).1.queue ≠ [] → (enqueue env op s).1.tokens = 0 →
      (enqueue env op s).1.timerArmed = true
    cases h1 : sigAborted env.aborted op.sig
    · cases h2 : queueFull s.cfg s.queue.length
      · rw [enqueue_ok_eq env op s h1 h2]
        exact processQueue_armed env (midEnq op s) ρ hr
      · rw [enqueue_full_eq env op s h1 h2]; exact h
    · rw [enqueue_aborted_eq env op s h1]; exact h
  | complete id ok =>
    show (onComplete env id ok s).1.queue ≠ [] → (onComplete env id ok s).1.tokens = 0 →
      (onComplete env id ok s).1.timerArmed = true
    by_cases hm : id ∈ s.activeIds
    · rw [onComplete_mem_eq env id ok s hm]
      show (checkIdle _).1.queue ≠ [] → (checkIdle _).1.tokens = 0 →
        (checkIdle _).1.timerArmed = true
      rw [checkIdle_queue, checkIdle_tokens, checkIdle_timerArmed]
      exact processQueue_armed env (midCpl id s) ρ hr
    · rw [onComplete_notMem_eq env id ok s hm]; exact h
  | timerFire =>
    show (onTimerFire env s).1.queue ≠ [] → (onTimerFire env s).1.tokens = 0 →
      (onTimerFire env s).1.timerArmed = true
    cases ht : s.timerArmed
    · rw [onTimerFire_unarmed_eq env s ht]; exact h
    · rw [onTimerFire_armed_eq env s ht]
      exact processQueue_armed env (midTmr env s) ρ hr
  | abortFire g =>
    show (onAbortSignal g s).1.queue ≠ [] → (onAbortSignal g s).1.tokens = 0 →
      (onAbortSignal g s).1.timerArmed = true
    rw [onAbortSignal_eq]
    intro hq ht
    apply h ?_ ht
    intro hnil
    apply hq
    show (runAbortHandlers _ s.queue).1 = []
    rw [hnil]
    exact List.sublist_nil.mp (by rw [← hnil]; exact runAbortHandlers_sublist _ s.queue)
  | clear rej =>
    show (clearQueue rej s).1.queue ≠ [] → (clearQueue rej s).1.tokens = 0 →
      (clearQueue rej s).1.timerArmed = true
    rw [clearQueue_eq]
    show (checkIdle _).1.queue ≠ [] → _
    rw [checkIdle_queue]
    intro hq
    exact absurd rfl hq
  | idleReq w =>
    show (onIdle w s).1.queue ≠ [] → (onIdle w s).1.tokens = 0 →
      (onIdle w s).1.timerArmed = true
    by_cases hw : s.activeCount = 0 ∧ s.queue = []
    · rw [onIdle_idle_eq w s hw.1 hw.2]; exact h
    · rw [onIdle_busy_eq w s hw]; exact h

/-- Induction over event traces: a property preserved by every step
holds at the end of every run. -/
theorem runSched_inv (P : Sched → Prop)
    (hstep : ∀ (env : Env) (e : Event) (s : Sched), P s → P (step env e s).1) :
    ∀ (tr : List (Env × Event)) (s : Sched), P s → P (runSched s tr) := by
  intro tr
  induction tr with
  | nil => intro s h; exact h
  | cons p rest ih =>
    intro s h
    exact ih (step p.1 p.2 s).1 (hstep p.1 p.2 s h)

/-! ### Claims -/

/-- C1: for every sequence of submissions, completions, cancellations
and timer fires on one scheduler instance, `activeCount` never exceeds
the configured concurrency limit: `processQueue` only increments it
under the guard `activeCount < concurrency`, and no other code path
increments it. -/
theorem claim1_activeCount_le_concurrency (cfg : Cfg) (c t0 : Nat)
    (tr : List (Env × Event)) (hc : cfg.concurrency = some c) :
    (runSched (initSched cfg t0) tr).activeCount ≤ c := by
  have h := runSched_inv (fun s => s.cfg = cfg ∧ s.activeCount ≤ c)
    (fun env e s hs => ⟨(step_cfg env e s).trans hs.1,
      step_active_le env e s c (by rw [hs.1]; exact hc) hs.2⟩)
    tr (initSched cfg t0) ⟨rfl, Nat.zero_le c⟩
  exact h.2

def cfgW1 : Cfg := ⟨some 2, none, 1000, none⟩

def trW1 : List (Env × Event) :=
  [(⟨0, []⟩, Event.submit ⟨1, 0, none⟩),
   (⟨0, []⟩, Event.submit ⟨2, 0, none⟩),
   (⟨0, []⟩, Event.submit ⟨3, 0, none⟩),
   (⟨5, []⟩, Event.complete 1 true),
   (⟨6, []⟩, Event.submit ⟨4, 2, none⟩)]

theorem claim1_witness :
    (runSched (initSched cfgW1 0) trW1).activeCount ≤ 2 :=
  claim1_activeCount_le_concurrency cfgW1 2 0 trW1 rfl

/-- C2: the queue is always ordered by nonincreasing priority;
insertion places a new operation immediately before the first queued
operation of strictly lower priority (at the end if none), so it goes
after every operation of greater-or-equal priority (stable FIFO within
a priority tier) and before every strictly-lower one; the head popped
by `queue.shift` in `processQueue` has maximal priority. -/
theorem claim2_priority_order :
    (∀ (cfg : Cfg) (t0 : Nat) (tr : List (Env × Event)),
        sortedQ (runSched (initSched cfg t0) tr).queue) ∧
    (∀ (op : Op) (q : List Op), sortedQ q →
        ∃ q₁ q₂, q = q₁ ++ q₂ ∧ insertOp op q = q₁ ++ op :: q₂ ∧
          (∀ x ∈ q₁, op.priority ≤ x.priority) ∧ (∀ x ∈ q₂, x.priority < op.priority)) ∧
    (∀ (op : Op) (rest : List Op), sortedQ (op :: rest) →
        ∀ x ∈ op :: rest, x.priority ≤ op.priority) := by
  refine ⟨?_, ?_, ?_⟩
  · intro cfg t0 tr
    exact runSched_inv (fun s => sortedQ s.queue)
      (fun env e s hs => step_sorted env e s hs) tr (initSched cfg t0) List.Pairwise.nil
  · exact fun op q hs => insertOp_split op q hs
  · exact fun op rest hs => sorted_head_max op rest hs

def trW2 : List (Env × Event) :=
  [(⟨0, []⟩, Event.submit ⟨1, 0, none⟩),
   (⟨0, []⟩, Event.submit ⟨2, 1, none⟩),
   (⟨0, []⟩, Event.submit ⟨3, 10, none⟩),
   (⟨0, []⟩, Event.submit ⟨4, 5, none⟩)]

def opW2 : Op := ⟨9, 5, none⟩

def qW2 : List Op := [⟨1, 9, none⟩, ⟨2, 5, none⟩, ⟨3, 1, none⟩]

theorem claim2_witness :
    sortedQ (runSched (initSched ⟨some 1, none, 1000, none⟩ 0) trW2).queue ∧
    (∃ q₁ q₂, qW2 = q₁ ++ q₂ ∧ insertOp opW2 qW2 = q₁ ++ opW2 :: q₂ ∧
      (∀ x ∈ q₁, opW2.priority ≤ x.priority) ∧ (∀ x ∈ q₂, x.priority < opW2.priority)) ∧
    (∀ x ∈ Op.mk 1 9 none :: [⟨2, 5, none⟩],
      x.priority ≤ (Op.mk 1 9 none).priority) :=
  ⟨claim2_priority_order.1 _ 0 trW2,
   claim2_priority_order.2.1 opW2 qW2 (by unfold sortedQ; decide),
   claim2_priority_order.2.2 ⟨1, 9, none⟩ [⟨2, 5, none⟩] (by unfold sortedQ; decide)⟩

def cfgX3 : Cfg := ⟨none, some 1, 100, none⟩

def trX3 : List (Env × Event) :=
  [(⟨0, []⟩, Event.submit ⟨1, 0, none⟩),
   (⟨0, []⟩, Event.submit ⟨2, 0, some 7⟩),
   (⟨10, [7]⟩, Event.abortFire 7)]

/-- C3 counterexample: submit a long-running operation (consuming the
only token), queue a second one behind it (arming the refill timer),
then cancel the queued one.  The abort watcher splices it out of the
queue but does not disarm the timer, so at the quiescent point after
the cancellation the timer is armed while the queue is empty — the
"armed iff queue non-empty and zero tokens" equivalence fails. -/
theorem claim3_counterexample :
    (runSched (initSched cfgX3 0) trX3).queue = [] ∧
    (runSched (initSched cfgX3 0) trX3).timerArmed = true ∧
    ¬((runSched (initSched cfgX3 0) trX3).timerArmed = true ↔
      ((runSched (initSched cfgX3 0) trX3).queue ≠ [] ∧
        (runSched (initSched cfgX3 0) trX3).tokens = 0)) := by
  decide

/-- C3 amended: only the forward direction of the invariant holds at
every quiescent point: whenever the queue is non-empty and the bucket
has zero tokens (with rate limiting configured), the refill timer is
armed.  The converse fails after a cancellation removes the last queued
operation: the abort watcher leaves the armed timer armed (it is
disarmed only by firing or by `clearQueue`). -/
theorem claim3_armed_if_starved (cfg : Cfg) (ρ t0 : Nat) (tr : List (Env × Event))
    (hr : cfg.rate = some ρ)
    (hq : (runSched (initSched cfg t0) tr).queue ≠ [])
    (ht : (runSched (initSched cfg t0) tr).tokens = 0) :
    (runSched (initSched cfg t0) tr).timerArmed = true := by
  have h := runSched_inv
    (fun s => s.cfg = cfg ∧ (s.queue ≠ [] → s.tokens = 0 → s.timerArmed = true))
    (fun env e s hs => ⟨(step_cfg env e s).trans hs.1,
      step_armed env e s ρ (by rw [hs.1]; exact hr) hs.2⟩)
    tr (initSched cfg t0) ⟨rfl, fun hne _ => absurd rfl hne⟩
  exact h.2 hq ht

def cfgW3 : Cfg := ⟨none, some 1, 100, none⟩

def trW3 : List (Env × Event) :=
  [(⟨0, []⟩, Event.submit ⟨1, 0, none⟩),
   (⟨0, []⟩, Event.submit ⟨2, 0, none⟩)]

theorem claim3_witness :
    (runSched (initSched cfgW3 0) trW3).timerArmed = true :=
  claim3_armed_if_starved cfgW3 1 0 trW3 rfl (by decide) (by decide)

/-- C4: the lazy refill computes `periods = floor(elapsed / interval)`;
when at least one full window elapsed it tops tokens up to
`min rate (tokens + rate * periods)` and advances the boundary by
exactly `periods * interval` — never resetting it to "now", so
boundaries stay on a fixed grid (`lastRefill` keeps its residue modulo
the interval and never passes the clock); with less than one window
elapsed nothing changes; with no rate configured the refill is a no-op
and the token guard is always satisfied. -/
theorem claim4_refill_semantics (cfg : Cfg) (r tokens lastRefill now : Nat)
    (hi : 0 < cfg.interval) (hle : lastRefill ≤ now) :
    (cfg.rate = none →
      refillTokens cfg now tokens lastRefill = (tokens, lastRefill) ∧
      tokensPos cfg tokens = true) ∧
    (cfg.rate = some r →
      (now - lastRefill < cfg.interval →
        refillTokens cfg now tokens lastRefill = (tokens, lastRefill)) ∧
      (cfg.interval ≤ now - lastRefill →
        1 ≤ (now - lastRefill) / cfg.interval ∧
        refillTokens cfg now tokens lastRefill =
          (min r (tokens + r * ((now - lastRefill) / cfg.interval)),
            lastRefill + ((now - lastRefill) / cfg.interval) * cfg.interval) ∧
        (refillTokens cfg now tokens lastRefill).2 % cfg.interval =
          lastRefill % cfg.interval ∧
        (refillTokens cfg now tokens lastRefill).2 ≤ now)) := by
  constructor
  · intro hn
    exact ⟨by simp [refillTokens, hn], by simp [tokensPos, hn]⟩
  · intro hs
    constructor
    · intro hlt
      simp [refillTokens, hs, not_le.mpr hlt]
    · intro hge
      have h1 : 1 ≤ (now - lastRefill) / cfg.interval := (Nat.one_le_div_iff hi).mpr hge
      have heq : refillTokens cfg now tokens lastRefill =
          (min r (tokens + r * ((now - lastRefill) / cfg.interval)),
            lastRefill + ((now - lastRefill) / cfg.interval) * cfg.interval) := by
        simp [refillTokens, hs, hge]
      refine ⟨h1, heq, ?_, ?_⟩
      · rw [heq]
        exact Nat.add_mul_mod_self_right lastRefill _ cfg.interval
      · rw [heq]
        have h2 : (now - lastRefill) / cfg.interval * cfg.interval ≤ now - lastRefill :=
          Nat.div_mul_le_self _ _
        show lastRefill + (now - lastRefill) / cfg.interval * cfg.interval ≤ now
        omega

theorem claim4_witness :
    refillTokens ⟨none, some 3, 100, none⟩ 250 0 0 = (3, 200) ∧
    1 ≤ (250 - 0) / (100 : Nat) := by
  have h := (claim4_refill_semantics ⟨none, some 3, 100, none⟩ 3 0 0 250
    (by decide) (by decide)).2 rfl
  have h2 := h.2 (by decide)
  exact ⟨by rw [h2.2.1]; decide, h2.1⟩

/-- C5: cancellation protocol.  (i) An already-aborted signal at
submission time rejects synchronously with AbortError, leaving the
whole state (queue, counts, listeners) untouched — the operation never
enters the queue.  (ii) If the signal fires while the operation is
queued (a listener for it is registered), the watcher removes it from
the queue and rejects it with AbortError.  (iii) If the operation has
already left the queue, its watcher settles nothing for it.  (iv) A
signal with no registered listener is a complete no-op. -/
theorem claim5_cancellation :
    (∀ (env : Env) (op : Op) (s : Sched), sigAborted env.aborted op.sig = true →
        enqueue env op s = (s, [(op.id, Outcome.aborted)], [])) ∧
    (∀ (g i : Nat) (s : Sched), (g, i) ∈ s.listeners → (∃ op ∈ s.queue, op.id = i) →
        (s.queue.map Op.id).Nodup → (s.listeners.map Prod.snd).Nodup →
        (∀ op ∈ (onAbortSignal g s).1.queue, op.id ≠ i) ∧
          (i, Outcome.aborted) ∈ (onAbortSignal g s).2.1) ∧
    (∀ (g i : Nat) (s : Sched), i ∉ s.queue.map Op.id →
        ∀ o, (i, o) ∉ (onAbortSignal g s).2.1) ∧
    (∀ (g : Nat) (s : Sched), (∀ l ∈ s.listeners, l.1 ≠ g) →
        onAbortSignal g s = (s, [], [])) := by
  refine ⟨?_, ?_, ?_, ?_⟩
  · exact fun env op s h => enqueue_aborted_eq env op s h
  · intro g i s hmem hq hqnd hlnd
    have hl : ∃ l ∈ s.listeners.filter (fun l => l.1 == g), l.2 = i :=
      ⟨(g, i), List.mem_filter.mpr ⟨hmem, by simp⟩, rfl⟩
    have hlnd2 : ((s.listeners.filter (fun l => l.1 == g)).map Prod.snd).Nodup :=
      List.Nodup.sublist (List.Sublist.map Prod.snd (List.filter_sublist s.listeners)) hlnd
    exact runAbortHandlers_hit _ s.queue i hl hq hqnd hlnd2
  · intro g i s hni o hmem
    obtain ⟨_, op, hop, hid⟩ := runAbortHandlers_settles _ s.queue (i, o) hmem
    exact hni (List.mem_map.mpr ⟨op, hop, hid⟩)
  · exact fun g s h => onAbortSignal_noop g s h

def envW5 : Env := ⟨0, [3]⟩

def opW5 : Op := ⟨1, 0, some 3⟩

def sW5 : Sched := initSched ⟨none, none, 1000, none⟩ 0

def sW5b : Sched :=
  { initSched ⟨some 1, none, 1000, none⟩ 0 with
    queue := [⟨2, 0, some 4⟩]
    activeCount := 1
    activeIds := [1]
    listeners := [(4, 2)] }

theorem claim5_witness :
    enqueue envW5 opW5 sW5 = (sW5, [(1, Outcome.aborted)], []) ∧
    ((∀ op ∈ (onAbortSignal 4 sW5b).1.queue, op.id ≠ 2) ∧
      (2, Outcome.aborted) ∈ (onAbortSignal 4 sW5b).2.1) ∧
    (∀ o, (9, o) ∉ (onAbortSignal 4 sW5b).2.1) ∧
    onAbortSignal 8 sW5b = (sW5b, [], []) :=
  ⟨claim5_cancellation.1 envW5 opW5 sW5 (by decide),
   claim5_cancellation.2.1 4 2 sW5b (by decide) ⟨⟨2, 0, some 4⟩, by decide, rfl⟩
     (by decide) (by decide),
   claim5_cancellation.2.2.1 4 9 sW5b (by decide),
   claim5_cancellation.2.2.2 8 sW5b (by decide)⟩

/-- C6: with a finite maxQueueSize, a submission finding the queue at
capacity (and its signal not already aborted) is rejected with
QueueFullError and the state is returned entirely unchanged; a
submission finding the queue below capacity is never rejected with
QueueFullError and ends up queued or admitted (in the admitted case its
id is among the in-flight ids). -/
theorem claim6_queue_full (env : Env) (op : Op) (s : Sched) (m : Nat)
    (hsig : sigAborted env.aborted op.sig = false)
    (hm : s.cfg.maxQueueSize = some m) :
    (m ≤ s.queue.length → enqueue env op s = (s, [(op.id, Outcome.queueFull)], [])) ∧
    (s.queue.length < m →
      (op.id, Outcome.queueFull) ∉ (enqueue env op s).2.1 ∧
        (op ∈ (enqueue env op s).1.queue ∨ op.id ∈ (enqueue env op s).1.activeIds)) := by
  constructor
  · intro hge
    exact enqueue_full_eq env op s hsig (by simp [queueFull, hm, hge])
  · intro hlt
    have hq : queueFull s.cfg s.queue.length = false := by
      simp [queueFull, hm]
      omega
    rw [enqueue_ok_eq env op s hsig hq]
    constructor
    · intro hmem
      have h := processLoop_settles _ _ _ _ _ (op.id, Outcome.queueFull)
        (by rw [processQueue_settles] at hmem; exact hmem)
      simp at h
    · have hop : op ∈ (midEnq op s).queue := by
        show op ∈ insertOp op s.queue
        rw [mem_insertOp]
        exact Or.inl rfl
      rcases processLoop_mem (midEnq op s).cfg env.aborted (midEnq op s).queue
          (midEnq op s).activeCount
          (refillTokens (midEnq op s).cfg env.now (midEnq op s).tokens
            (midEnq op s).lastRefill).1 op hop hsig with h | h
      · left
        rw [processQueue_queue]
        exact h
      · right
        rw [processQueue_activeIds]
        exact List.mem_append_left _ h

def envW6 : Env := ⟨0, []⟩

def sW6 : Sched :=
  { initSched ⟨some 1, none, 1000, some 2⟩ 0 with
    queue := [⟨2, 0, none⟩, ⟨3, 0, none⟩]
    activeCount := 1
    activeIds := [1] }

def sW6b : Sched :=
  { initSched ⟨some 1, none, 1000, some 5⟩ 0 with
    queue := [⟨2, 0, none⟩]
    activeCount := 1
    activeIds := [1] }

theorem claim6_witness :
    enqueue envW6 ⟨4, 0, none⟩ sW6 = (sW6, [(4, Outcome.queueFull)], []) ∧
    ((5, Outcome.queueFull) ∉ (enqueue envW6 ⟨5, 0, none⟩ sW6b).2.1 ∧
      (Op.mk 5 0 none ∈ (enqueue envW6 ⟨5, 0, none⟩ sW6b).1.queue ∨
        5 ∈ (enqueue envW6 ⟨5, 0, none⟩ sW6b).1.activeIds)) :=
  ⟨(claim6_queue_full envW6 ⟨4, 0, none⟩ sW6 2 (by decide) rfl).1 (by decide),
   (claim6_queue_full envW6 ⟨5, 0, none⟩ sW6b 5 (by decide) rfl).2 (by decide)⟩

/-- C7: `clearQueue` empties the queue entirely (leaving
`pendingCount = 0`), keeps the active count and the in-flight
operations untouched, settles every removed operation with
QueueClearedError exactly when `rej` is set (and settles nothing
otherwise), and deregisters the abort watcher of every removed
operation: no surviving listener points at a removed operation, and
when every listener pointed into the queue none survive. -/
theorem claim7_clear_queue (rej : Bool) (s : Sched) :
    (clearQueue rej s).1.queue = [] ∧
    (clearQueue rej s).1.activeCount = s.activeCount ∧
    (clearQueue rej s).1.activeIds = s.activeIds ∧
    (clearQueue rej s).2.1 =
      (if rej then s.queue.map (fun op => (op.id, Outcome.cleared)) else []) ∧
    (∀ l ∈ (clearQueue rej s).1.listeners, l.2 ∉ s.queue.map Op.id) ∧
    ((∀ l ∈ s.listeners, ∃ op ∈ s.queue, op.id = l.2) →
      (clearQueue rej s).1.listeners = []) := by
  rw [clearQueue_eq]
  refine ⟨?_, ?_, ?_, rfl, ?_, ?_⟩
  · show (checkIdle _).1.queue = []
    rw [checkIdle_queue]; rfl
  · show (checkIdle _).1.activeCount = s.activeCount
    rw [checkIdle_activeCount]; rfl
  · show (checkIdle _).1.activeIds = s.activeIds
    rw [checkIdle_activeIds]; rfl
  · show ∀ l ∈ (checkIdle (midClr s)).1.listeners, l.2 ∉ s.queue.map Op.id
    rw [checkIdle_listeners]
    intro l hl hmem
    have hpred := List.of_mem_filter hl
    obtain ⟨op, hop, hid⟩ := List.mem_map.mp hmem
    rw [Bool.not_eq_eq_eq_not, Bool.not_true, List.any_eq_false] at hpred
    exact hpred op hop (by simp [hid])
  · intro hall
    show (checkIdle (midClr s)).1.listeners = []
    rw [checkIdle_listeners]
    show s.listeners.filter _ = []
    rw [List.filter_eq_nil_iff]
    intro l hl
    obtain ⟨op, hop, hid⟩ := hall l hl
    simp only [Bool.not_eq_true', Bool.not_eq_false]
    exact List.any_eq_true.mpr ⟨op, hop, by simp [hid]⟩

def sW7 : Sched :=
  { initSched ⟨some 1, none, 1000, none⟩ 0 with
    queue := [⟨2, 3, some 6⟩, ⟨3, 0, none⟩]
    activeCount := 1
    activeIds := [1]
    listeners := [(6, 2)] }

theorem claim7_witness :
    (clearQueue true sW7).1.queue = [] ∧
    (clearQueue true sW7).1.activeCount = sW7.activeCount ∧
    (clearQueue true sW7).2.1 =
      (if true then sW7.queue.map (fun op => (op.id, Outcome.cleared)) else []) ∧
    (clearQueue true sW7).1.listeners = [] := by
  have h := claim7_clear_queue true sW7
  exact ⟨h.1, h.2.1, h.2.2.2.1, h.2.2.2.2.2 (by decide)⟩

def cfgX8 : Cfg := ⟨none, some 1, 100, none⟩

def trX8 : List (Env × Event) :=
  [(⟨0, []⟩, Event.submit ⟨1, 0, none⟩),
   (⟨0, []⟩, Event.submit ⟨2, 0, some 7⟩),
   (⟨20, []⟩, Event.complete 1 true),
   (⟨30, []⟩, Event.idleReq 5),
   (⟨40, [7]⟩, Event.abortFire 7)]

/-- C8 counterexample: with rate 1 per 100ms, operation 1 runs
(consuming the token) and operation 2 queues behind it; operation 1
completes (activeCount reaches 0 with 2 still queued, no token), a
caller awaits idle, then operation 2 is cancelled.  Both counts are now
zero, yet the abort watcher runs no idle check, so waiter 5 stays
registered and no release was ever emitted — the onIdle future did not
resolve at the instant both counts reached zero. -/
theorem claim8_counterexample :
    (runRel (initSched cfgX8 0) trX8).1.activeCount = 0 ∧
    (runRel (initSched cfgX8 0) trX8).1.queue = [] ∧
    (runRel (initSched cfgX8 0) trX8).1.idleWaiters = [5] ∧
    (runRel (initSched cfgX8 0) trX8).2 = [] := by
  decide

/-- C8 amended: `onIdle` returns an already-resolved future exactly
when called while nothing is active and the queue is empty, and
otherwise installs a fresh wait; all waiters registered so far are
released together as one batch by the `checkIdle` at the end of a
`processQueue` pass (admission pass after a submission, completion or
timer fire) or of `clearQueue` once both counts are zero.  A
cancellation that empties the queue does not itself release waiters;
they are released at the next such pass. -/
theorem claim8_idle_release :
    (∀ (w : Nat) (s : Sched), s.activeCount = 0 → s.queue = [] →
        onIdle w s = (s, [], [w])) ∧
    (∀ (w : Nat) (s : Sched), ¬(s.activeCount = 0 ∧ s.queue = []) →
        onIdle w s = ({ s with idleWaiters := s.idleWaiters ++ [w] }, [], [])) ∧
    (∀ (env : Env) (s : Sched),
        (processQueue env s).1.activeCount = 0 → (processQueue env s).1.queue = [] →
        (processQueue env s).1.idleWaiters = [] ∧ (processQueue env s).2.2 = s.idleWaiters) ∧
    (∀ (rej : Bool) (s : Sched), s.activeCount = 0 →
        (clearQueue rej s).1.idleWaiters = [] ∧ (clearQueue rej s).2.2 = s.idleWaiters) := by
  refine ⟨?_, ?_, ?_, ?_⟩
  · exact fun w s ha hq => onIdle_idle_eq w s ha hq
  · exact fun w s h => onIdle_busy_eq w s h
  · exact fun env s ha hq => processQueue_drain env s ha hq
  · intro rej s ha
    rw [clearQueue_eq]
    have h := checkIdle_drain (midClr s) ha rfl
    exact ⟨h.1, h.2⟩

def sW8 : Sched :=
  { initSched ⟨some 1, none, 1000, none⟩ 0 with
    queue := [⟨2, 0, none⟩]
    activeCount := 1
    activeIds := [1] }

def sW8b : Sched :=
  { initSched ⟨some 1, none, 1000, none⟩ 0 with idleWaiters := [4, 5] }

theorem claim8_witness :
    onIdle 9 (initSched ⟨some 1, none, 1000, none⟩ 0) =
      (initSched ⟨some 1, none, 1000, none⟩ 0, [], [9]) ∧
    onIdle 9 sW8 = ({ sW8 with idleWaiters := sW8.idleWaiters ++ [9] }, [], []) ∧
    ((processQueue ⟨0, []⟩ sW8b).1.idleWaiters = [] ∧
      (processQueue ⟨0, []⟩ sW8b).2.2 = sW8b.idleWaiters) ∧
    ((clearQueue true sW8b).1.idleWaiters = [] ∧
      (clearQueue true sW8b).2.2 = sW8b.idleWaiters) :=
  ⟨claim8_idle_release.1 9 _ rfl rfl,
   claim8_idle_release.2.1 9 sW8 (by decide),
   claim8_idle_release.2.2.1 ⟨0, []⟩ sW8b (by decide) (by decide),
   claim8_idle_release.2.2.2 true sW8b rfl⟩

/-- C9: in the admission loop, a popped operation whose signal is
already aborted is settled with AbortError and the loop continues
without incrementing the active count or consuming a token: the active
count grows by exactly the number of dispatched operations, the token
count (when rate limiting is enabled) drops by exactly that same
number (and is untouched without rate limiting), every loop settlement
is an AbortError for a popped operation whose signal was aborted, and
every dispatched operation had a non-aborted signal. -/
theorem claim9_admission_race (cfg : Cfg) (ab : List Nat) (q : List Op) (a t : Nat) :
    (processLoop cfg ab q a t).active = a + (processLoop cfg ab q a t).dispatched.length ∧
    (∀ ρ, cfg.rate = some ρ →
      (processLoop cfg ab q a t).tokens + (processLoop cfg ab q a t).dispatched.length = t) ∧
    (cfg.rate = none → (processLoop cfg ab q a t).tokens = t) ∧
    (∀ p ∈ (processLoop cfg ab q a t).settles,
      p.2 = Outcome.aborted ∧ ∃ op ∈ q, op.id = p.1 ∧ sigAborted ab op.sig = true) ∧
    (∀ i ∈ (processLoop cfg ab q a t).dispatched,
      ∃ op ∈ q, op.id = i ∧ sigAborted ab op.sig = false) :=
  ⟨processLoop_active cfg ab q a t,
   fun ρ hr => processLoop_tokens_some cfg ab ρ hr q a t,
   fun hr => processLoop_tokens_none cfg ab hr q a t,
   processLoop_settles cfg ab q a t,
   processLoop_dispatched cfg ab q a t⟩

def cfgW9 : Cfg := ⟨some 4, some 3, 100, none⟩

def qW9 : List Op := [⟨1, 5, some 7⟩, ⟨2, 3, none⟩, ⟨3, 1, some 8⟩]

theorem claim9_witness :
    (processLoop cfgW9 [7] qW9 0 3).active =
      0 + (processLoop cfgW9 [7] qW9 0 3).dispatched.length ∧
    (processLoop cfgW9 [7] qW9 0 3).tokens +
      (processLoop cfgW9 [7] qW9 0 3).dispatched.length = 3 ∧
    (∀ p ∈ (processLoop cfgW9 [7] qW9 0 3).settles,
      p.2 = Outcome.aborted ∧ ∃ op ∈ qW9, op.id = p.1 ∧ sigAborted [7] op.sig = true) :=
  ⟨(claim9_admission_race cfgW9 [7] qW9 0 3).1,
   (claim9_admission_race cfgW9 [7] qW9 0 3).2.1 3 rfl,
   (claim9_admission_race cfgW9 [7] qW9 0 3).2.2.2.1⟩

/-- C10: the already-aborted check precedes the queue-capacity check
in the submission path, so a submission with an already-canceled signal
arriving at a full queue fails with AbortError, not QueueFullError, and
the state is unchanged. -/
theorem claim10_abort_precedes_full (env : Env) (op : Op) (s : Sched) (m : Nat)
    (hm : s.cfg.maxQueueSize = some m) (hlen : m ≤ s.queue.length)
    (hab : sigAborted env.aborted op.sig = true) :
    enqueue env op s = (s, [(op.id, Outcome.aborted)], []) ∧
    (op.id, Outcome.queueFull) ∉ (enqueue env op s).2.1 := by
  have he := enqueue_aborted_eq env op s hab
  refine ⟨he, ?_⟩
  rw [he]
  simp

def envW10 : Env := ⟨0, [7]⟩

def sW10 : Sched :=
  { initSched ⟨some 1, none, 1000, some 1⟩ 0 with
    queue := [⟨2, 0, none⟩]
    activeCount := 1
    activeIds := [1] }

theorem claim10_witness :
    enqueue envW10 ⟨3, 0, some 7⟩ sW10 = (sW10, [(3, Outcome.aborted)], []) ∧
    (3, Outcome.queueFull) ∉ (enqueue envW10 ⟨3, 0, some 7⟩ sW10).2.1 :=
  claim10_abort_precedes_full envW10 ⟨3, 0, some 7⟩ sW10 1 rfl (by decide) (by decide)

end NanoLimit
